import Mathlib

/-!
Verification of the heuristic listing-extraction pipeline of the
Swedish business-for-sale scraper (`server.js`).

The JavaScript source is shallowly embedded: strings are Lean `String`s
(manipulated through their character lists), JS regular-expression
matching is modelled by explicit executable scanners specialised to the
concrete patterns of the source, the per-request mutable state
(seen-title sets, result accumulators, counters) is threaded explicitly,
and the network is an oracle function supplied by the caller.  Numbers
coming out of `parseFloat` are modelled as exact rationals (`Option ℚ`,
with `none` standing for JS `NaN`); all values appearing in the claims
are small decimal literals, which float64 represents exactly.
-/

namespace SwedenScraper

/-! ### Character-level utilities shared by the embedded functions -/

/-- JS `\s` whitespace, restricted to the ASCII whitespace characters
(space, tab, line feed, vertical tab, form feed, carriage return); the
additional rare Unicode space code points matched by JS `\s` do not occur
in any data handled by this development. -/
def isWsChar (c : Char) : Bool :=
  c == ' ' || c == '\t' || c == '\n' || c == '\x0b' || c == '\x0c' || c == '\r'

/-- JS `\w`: ASCII letters, digits and underscore. -/
def isWordChar (c : Char) : Bool :=
  ('a' ≤ c && c ≤ 'z') || ('A' ≤ c && c ≤ 'Z') || ('0' ≤ c && c ≤ '9') || c == '_'

/-- `String.prototype.toLowerCase`, on the alphabet the scraper handles:
ASCII letters plus the Swedish letters Å, Ä, Ö.  Other characters are
returned unchanged (no other upper-case letters occur in the embedded
patterns or in the concrete data of this development). -/
def jsToLower (c : Char) : Char :=
  if 'A' ≤ c && c ≤ 'Z' then Char.ofNat (c.toNat + 32)
  else if c == 'Å' then 'å'
  else if c == 'Ä' then 'ä'
  else if c == 'Ö' then 'ö'
  else c

/-- Does `pat` occur at the head of `l` (case-sensitive)? -/
def startsWith : List Char → List Char → Bool
  | [], _ => true
  | _ :: _, [] => false
  | p :: ps, c :: cs => p == c && startsWith ps cs

/-- Does `pat` (given already lower-cased) occur at the head of `l`,
comparing case-insensitively? -/
def startsWithCI : List Char → List Char → Bool
  | [], _ => true
  | _ :: _, [] => false
  | p :: ps, c :: cs => p == jsToLower c && startsWithCI ps cs

/-- Does `pat` occur anywhere in `l` (JS `String.prototype.includes`)? -/
def hasSubstr (pat : List Char) : List Char → Bool
  | [] => pat.isEmpty
  | c :: cs => startsWith pat (c :: cs) || hasSubstr pat cs

/-- Leading/trailing whitespace removal on character lists
(JS `String.prototype.trim`, with `isWsChar` whitespace). -/
def trimRightChars (l : List Char) : List Char :=
  (l.reverse.dropWhile isWsChar).reverse

def trimChars (l : List Char) : List Char :=
  trimRightChars (l.dropWhile isWsChar)

/-- JS `s.trim()` on strings. -/
def jsTrim (s : String) : String :=
  String.mk (trimChars s.toList)

/-- JS `s.toLowerCase()` on strings. -/
def lowerStr (s : String) : String :=
  String.mk (s.toList.map jsToLower)

/-- JS `s.includes(pat)` (case-sensitive substring test). -/
def strIncludes (pat s : String) : Bool :=
  hasSubstr pat.toList s.toList

/-! ### Site configuration (`WEBSITES`, server.js lines 13-46) -/

/-- One entry of the `WEBSITES` table.  The JS object literal has exactly
these five properties; in particular it has **no** `name` property. -/
structure SiteConfig where
  baseUrl : String
  listingUrl : String
  pagination : String
  priority : Nat
  maxPages : Nat
  deriving DecidableEq, Repr

/-- The four configured sites, in declaration order of the JS object. -/
def WEBSITES : List (String × SiteConfig) :=
  [("exitpartner",
    { baseUrl := "https://www.exitpartner.se"
      listingUrl := "https://www.exitpartner.se/foretag-till-salu/"
      pagination := "?page="
      priority := 1
      maxPages := 8 }),
   ("bolagsplatsen",
    { baseUrl := "https://www.bolagsplatsen.se"
      listingUrl := "https://www.bolagsplatsen.se/foretag-till-salu/alla/alla"
      pagination := "?page="
      priority := 2
      maxPages := 5 }),
   ("objektvision",
    { baseUrl := "https://objektvision.se"
      listingUrl := "https://objektvision.se/företag_till_salu"
      pagination := "?page="
      priority := 3
      maxPages := 3 }),
   ("smergers",
    { baseUrl := "https://www.smergers.com"
      listingUrl := "https://www.smergers.com/businesses-for-sale-in-sweden/c415t2b/"
      pagination := "?page="
      priority := 4
      maxPages := 3 })]

/-! ### Fetch results (`scrapePage` return values) -/

structure ScrapedLink where
  text : String
  href : String
  deriving DecidableEq, Repr

/-- Return value of `scrapePage`: the success object carries links, text
fragments and the raw HTML length; the failure object carries the error
message and empty collections (`html_length` is absent on failure and
`error` is absent on success, modelled with `Option`). -/
structure FetchResult where
  success : Bool
  website : String
  url : String
  links : List ScrapedLink
  text : List String
  error : Option String
  html_length : Option Nat
  deriving DecidableEq, Repr

/-! ### Listing segmentation (server.js lines 126-131) -/

/-- Does one of the revenue-indicator tokens `Omsättning`, `omsätter`,
`Oms.` occur (case-insensitively) at the head of `l`?  These are the
alternatives of the lookahead `/(?=Omsättning|omsätter|Oms\.)/i`. -/
def revTokenAt (l : List Char) : Bool :=
  startsWithCI "omsättning".toList l ||
  startsWithCI "omsätter".toList l ||
  startsWithCI "oms.".toList l

/-- Worker for the lookahead split: `acc` is the current block reversed.
A split happens before every token occurrence except at position 0
(JS `split` on a zero-width match at the start yields no leading empty
string). -/
def splitBlocksGo (acc : List Char) : List Char → List (List Char)
  | [] => [acc.reverse]
  | c :: rest =>
    if acc != [] && revTokenAt (c :: rest) then
      acc.reverse :: splitBlocksGo [c] rest
    else
      splitBlocksGo (c :: acc) rest

/-- `allText.split(/(?=Omsättning|omsätter|Oms\.)/i)`. -/
def splitListingBlocks (s : String) : List String :=
  (splitBlocksGo [] s.toList).map String.mk

/-! ### Title extraction (server.js lines 140-148) -/

/-- The characters kept by `replace(/[^\w\sÅÄÖ-]/g, '')`: word characters,
whitespace, the upper-case letters Å Ä Ö, and the hyphen.  The regex has
no `i` flag, so lower-case å ä ö are *not* in the kept set. -/
def titleCharKeep (c : Char) : Bool :=
  isWordChar c || isWsChar c || c == 'Å' || c == 'Ä' || c == 'Ö' || c == '-'

/-- Worker for `split('\n')`: `cur` is the reversed current line. -/
def splitNlGo (cur : List Char) : List Char → List (List Char)
  | [] => [cur.reverse]
  | c :: rest =>
    if c == '\n' then cur.reverse :: splitNlGo [] rest
    else splitNlGo (c :: cur) rest

/-- JS `s.split('\n')` (empty pieces kept). -/
def splitLines (s : String) : List String :=
  (splitNlGo [] s.toList).map String.mk

/-- `block.split('\n').filter(line => line.trim().length > 10 &&
!line.includes('http') && !line.includes('Omsättning'))`. -/
def titleCandidatesOf (block : String) : List String :=
  (splitLines block).filter (fun line =>
    decide (10 < (jsTrim line).length) &&
    !(strIncludes "http" line) && !(strIncludes "Omsättning" line))

/-- Title extraction from one block: the first candidate line is trimmed
and stripped through `titleCharKeep`.  No candidate yields `""`
(the JS code leaves `title` as the empty string). -/
def extractTitle (block : String) : String :=
  match titleCandidatesOf block with
  | [] => ""
  | line :: _ => String.mk (((jsTrim line).toList).filter titleCharKeep)

/-! ### Field extraction (server.js lines 151-175)

The revenue regex is
`/(?:omsättning|oms|revenue)[^0-9]*([0-9,.\s]+(?:miljoner|mkr|msek|kr))/i`
and the profit regex is the analogous
`/(?:resultat|vinst|profit|ebitda)[^0-9]*([0-9,.\s]+(?:%|miljoner|mkr|msek))/i`.
They are modelled by an explicit backtracking scanner: the string is
scanned left to right; at each position the anchor alternatives are tried
in order; `[^0-9]*` is greedy, so the lengths it may consume are tried
from the maximal run of non-digits downwards; the capture class
`[0-9,.\s]+` is greedy, and since no unit alternative starts with a
character of that class, the unit can only match at the end of the
maximal class run. -/

/-- First pattern in `pats` (already lower-cased) matching at the head of
`l`, returning its length; the alternatives are tried in order, as a JS
alternation does. -/
def matchLenAt : List (List Char) → List Char → Option Nat
  | [], _ => none
  | p :: ps, l => if startsWithCI p l then some p.length else matchLenAt ps l

/-- Character class `[0-9,.\s]` of the capture groups. -/
def isCaptureCls (c : Char) : Bool :=
  ('0' ≤ c && c ≤ '9') || c == ',' || c == '.' || isWsChar c

/-- Attempt `([0-9,.\s]+(?:unit))` starting exactly at `l`: a non-empty
greedy run of class characters, then one of the units.  Since no unit
starts with a class character, backtracking inside the `+` cannot help,
so only the maximal run is tried. -/
def tryCapture (units : List (List Char)) (l : List Char) : Option (List Char) :=
  match l with
  | [] => none
  | c :: _ =>
    if isCaptureCls c then
      let run := l.takeWhile isCaptureCls
      let rest := l.drop run.length
      match matchLenAt units rest with
      | some u => some (run ++ rest.take u)
      | none => none
    else none

/-- Greedy `[^0-9]*` then the capture: the skip length `k` is tried from
`k` down to `0` (JS greediness); each tried `k` is a valid `[^0-9]*`
match because the caller passes the maximal non-digit run length. -/
def captureSearch (units : List (List Char)) (l : List Char) : Nat → Option (List Char)
  | 0 => tryCapture units l
  | k + 1 =>
    match tryCapture units (l.drop (k + 1)) with
    | some cap => some cap
    | none => captureSearch units l k

/-- `[^0-9]*([0-9,.\s]+(?:unit))` starting at `l`. -/
def captureFrom (units : List (List Char)) (l : List Char) : Option (List Char) :=
  captureSearch units l (l.takeWhile (fun c => !('0' ≤ c && c ≤ '9'))).length

/-- Try the anchor alternatives in order at the head of `l`; on a failed
completion the engine backtracks to the next alternative. -/
def anchorsTry (units : List (List Char)) (l : List Char) :
    List (List Char) → Option (List Char)
  | [] => none
  | a :: more =>
    if startsWithCI a l then
      match captureFrom units (l.drop a.length) with
      | some cap => some cap
      | none => anchorsTry units l more
    else anchorsTry units l more

/-- Leftmost match of `(?:anchors)[^0-9]*([0-9,.\s]+(?:units))`,
returning the capture group. -/
def numUnitCapture (anchors units : List (List Char)) : List Char → Option (List Char)
  | [] => none
  | c :: rest =>
    match anchorsTry units (c :: rest) anchors with
    | some cap => some cap
    | none => numUnitCapture anchors units rest

/-- Revenue extraction: the capture of the revenue regex, trimmed;
`"Not disclosed"` when the regex does not match. -/
def extractRevenue (block : String) : String :=
  match numUnitCapture
      ["omsättning".toList, "oms".toList, "revenue".toList]
      ["miljoner".toList, "mkr".toList, "msek".toList, "kr".toList]
      block.toList with
  | some cap => jsTrim (String.mk cap)
  | none => "Not disclosed"

/-- Profit extraction: the capture of the profit regex, trimmed;
`"Not disclosed"` when the regex does not match. -/
def extractProfit (block : String) : String :=
  match numUnitCapture
      ["resultat".toList, "vinst".toList, "profit".toList, "ebitda".toList]
      ["%".toList, "miljoner".toList, "mkr".toList, "msek".toList]
      block.toList with
  | some cap => jsTrim (String.mk cap)
  | none => "Not disclosed"

/-- Leftmost case-insensitive occurrence of one of `pats`, returning the
matched slice of the original text. -/
def scanFirstMatch (pats : List (List Char)) : List Char → Option (List Char)
  | [] => none
  | c :: rest =>
    match matchLenAt pats (c :: rest) with
    | some n => some ((c :: rest).take n)
    | none => scanFirstMatch pats rest

/-- The fixed city alternation of the location regex, lower-cased for the
case-insensitive prefix test. -/
def citiesLower : List (List Char) :=
  ["stockholm", "göteborg", "malmö", "uppsala", "linköping", "örebro",
   "västerås", "norrköping", "helsingborg", "jönköping", "umeå",
   "sundsvall"].map String.toList

/-- Location extraction: first city-name match (trimmed), else `"Sweden"`. -/
def extractLocation (block : String) : String :=
  match scanFirstMatch citiesLower block.toList with
  | some m => jsTrim (String.mk m)
  | none => "Sweden"

/-- `/(https?:\/\/[^\s\)]+)/` at the head of `l` (case-sensitive, no `i`
flag): `http` or `https`, `://`, then a non-empty greedy run of
characters that are neither whitespace nor `)`. -/
def linkAt (l : List Char) : Option (List Char) :=
  let scheme :=
    if startsWith "https://".toList l then some 8
    else if startsWith "http://".toList l then some 7
    else none
  match scheme with
  | none => none
  | some n =>
    let run := (l.drop n).takeWhile (fun c => !isWsChar c && c != ')')
    if run.isEmpty then none else some (l.take n ++ run)

/-- Leftmost match of the embedded-URL regex. -/
def linkScan : List Char → Option (List Char)
  | [] => none
  | c :: rest =>
    match linkAt (c :: rest) with
    | some m => some m
    | none => linkScan rest

/-- Link extraction: first embedded URL (trimmed), else the page URL. -/
def extractLink (pageUrl : String) (block : String) : String :=
  match linkScan block.toList with
  | some m => jsTrim (String.mk m)
  | none => pageUrl

/-! ### Listings and `findBusinessListings` (server.js lines 123-196) -/

/-- One extracted business listing. `website_source` is an `Option`
because the JS code stores `websiteConfig.name`, a property read from an
object that has no such field, i.e. `undefined`. -/
structure Listing where
  title : String
  company : String
  location : String
  price : String
  revenue : String
  profit : String
  industry : String
  category : String
  description : String
  link : String
  website_source : Option String
  scraped_at : String
  currency : String
  extraction_method : String
  deriving DecidableEq, Repr

/-- The listing-confirmation keywords of server.js line 136. -/
def businessKeywords : List String :=
  ["företag", "verksamhet", "bolag", "business", "till salu"]

/-- `block.substring(0, 300)`. -/
def jsSubstring300 (block : String) : String :=
  String.mk (block.toList.take 300)

/-- The `listingBlocks.forEach` body: `processedText` is the seen-title
set (the JS `Set` holds exactly the titles added so far), and listings
are emitted in block order.  `pageUrl` is `rawScrapedData.url` and `now`
the `new Date().toISOString()` timestamp of the extraction. -/
def processBlocks (pageUrl now : String) :
    List String → List String → List Listing
  | _, [] => []
  | processedText, block :: rest =>
    let lowerBlock := lowerStr block
    let isBusiness := businessKeywords.any (fun kw => strIncludes kw lowerBlock)
    if !isBusiness then processBlocks pageUrl now processedText rest
    else
      let title := extractTitle block
      if title == "" || title ∈ processedText then
        processBlocks pageUrl now processedText rest
      else
        { title := title
          company := title
          location := extractLocation block
          price := "Price on request"
          revenue := extractRevenue block
          profit := extractProfit block
          industry := "Various"
          category := "Business for Sale"
          description := jsSubstring300 block ++ "..."
          link := extractLink pageUrl block
          -- `websiteConfig.name`: `SiteConfig` has no `name` property, so
          -- the JS property access yields `undefined`.
          website_source := none
          scraped_at := now
          currency := "SEK"
          extraction_method := "text_pattern_match_refined" } ::
        processBlocks pageUrl now (title :: processedText) rest

/-- `findBusinessListings(rawScrapedData, websiteConfig)`: join the text
fragments with newlines, segment into blocks, and process each block.
The `websiteConfig` argument is only used through its (absent) `name`
property, see `processBlocks`. -/
def findBusinessListings (rawScrapedData : FetchResult)
    (_websiteConfig : SiteConfig) (now : String) : List Listing :=
  let allText := String.intercalate "\n" rawScrapedData.text
  let listingBlocks := splitListingBlocks allText
  processBlocks rawScrapedData.url now [] listingBlocks

/-! ### Deduplication (`deduplicateBusinesses`, server.js lines 272-287) -/

/-- Characters kept by `replace(/[^a-z0-9åäö\s]/g, '')` (applied after
`toLowerCase`): lower-case ASCII letters, digits, å ä ö, whitespace. -/
def keepNormChar (c : Char) : Bool :=
  ('a' ≤ c && c ≤ 'z') || ('0' ≤ c && c ≤ '9') ||
  c == 'å' || c == 'ä' || c == 'ö' || isWsChar c

/-- `replace(/\s+/g, ' ')`: every maximal run of whitespace becomes one
space.  The two-character patterns make the recursion structural: inside
a run all characters but the last are dropped, and the last becomes a
space. -/
def collapseWs : List Char → List Char
  | [] => []
  | [c] => if isWsChar c then [' '] else [c]
  | c1 :: c2 :: rest =>
    if isWsChar c1 && isWsChar c2 then collapseWs (c2 :: rest)
    else (if isWsChar c1 then ' ' else c1) :: collapseWs (c2 :: rest)

/-- `s.toLowerCase().replace(/[^a-z0-9åäö\s]/g, '').replace(/\s+/g, ' ').trim()`,
the normalization applied to title and location before keying. -/
def normalizeKeyPart (s : String) : String :=
  String.mk (trimChars (collapseWs ((s.toList.map jsToLower).filter keepNormChar)))

/-- The deduplication key `normalizedTitle_normalizedLocation`. -/
def dedupKey (b : Listing) : String :=
  normalizeKeyPart b.title ++ "_" ++ normalizeKeyPart b.location

/-- The loop of `deduplicateBusinesses`: `seen` is the key set of the JS
`Map` (its values are written but never read). -/
def dedupGo (seen : List String) : List Listing → List Listing
  | [] => []
  | b :: rest =>
    let key := dedupKey b
    if key ∈ seen then dedupGo seen rest
    else b :: dedupGo (key :: seen) rest

def deduplicateBusinesses (businesses : List Listing) : List Listing :=
  dedupGo [] businesses

/-! ### Profile filter (`filterByProfitRange`, server.js lines 293-320) -/

/-- The lower-cased search text
`` `${revenue} ${profit} ${description} ${title}`.toLowerCase() ``,
as a character list. -/
def searchChars (b : Listing) : List Char :=
  ((b.revenue ++ " " ++ b.profit ++ " " ++ b.description ++ " " ++ b.title).toList).map jsToLower

/-- First indicator `/([0-9,.]*?)\s*(?:miljoner?|mkr|msek)/gi`: the lazy
capture `[0-9,.]*?` and `\s*` both match the empty string, so a match
exists exactly when the text contains `miljone`, `mkr` or `msek`
(`miljoner?` is `miljone` with an optional trailing `r`). -/
def millionsInd (s : List Char) : Bool :=
  hasSubstr "miljone".toList s || hasSubstr "mkr".toList s || hasSubstr "msek".toList s

/-- Keyword of the employee-count indicator after optional whitespace. -/
def afterWsKeyword (l : List Char) : Bool :=
  startsWith "anställda".toList l || startsWith "employees".toList l ||
  startsWith "personal".toList l ||
  (match l with
   | c :: rest => isWsChar c && afterWsKeyword rest
   | [] => false)

/-- After the first three digits of `[1-9][0-9][0-9]+`: optionally more
digits, then whitespace and a keyword (match existence over all
expansions of the greedy quantifiers). -/
def afterDigitsWsKeyword (l : List Char) : Bool :=
  afterWsKeyword l ||
  (match l with
   | c :: rest => ('0' ≤ c && c ≤ '9') && afterDigitsWsKeyword rest
   | [] => false)

/-- `/([2-9][0-9]|[1-9][0-9][0-9]+)\s*(?:anställda|employees|personal)/gi`
matching at the head of `l` (the search text is already lower-case, so
the `i` flag is moot). -/
def employeeMatchAt (l : List Char) : Bool :=
  (match l with
   | c1 :: c2 :: rest =>
     (('2' ≤ c1 && c1 ≤ '9') && ('0' ≤ c2 && c2 ≤ '9') && afterWsKeyword rest) ||
     (match rest with
      | c3 :: rest2 =>
        ('1' ≤ c1 && c1 ≤ '9') && ('0' ≤ c2 && c2 ≤ '9') &&
        ('0' ≤ c3 && c3 ≤ '9') && afterDigitsWsKeyword rest2
      | [] => false)
   | _ => false)

/-- Second indicator: the employee-count pattern matches somewhere. -/
def employeesInd : List Char → Bool
  | [] => false
  | c :: rest => employeeMatchAt (c :: rest) || employeesInd rest

/-- Third indicator `/(lönsam|vinst|ebitda|profitable)/gi`. -/
def profitKeywordInd (s : List Char) : Bool :=
  hasSubstr "lönsam".toList s || hasSubstr "vinst".toList s ||
  hasSubstr "ebitda".toList s || hasSubstr "profitable".toList s

/-- `indicators.some(pattern => searchText.match(pattern))`. -/
def hasIndicatorB (b : Listing) : Bool :=
  let st := searchChars b
  millionsInd st || employeesInd st || profitKeywordInd st

/-- `revenue.replace(/[^0-9.]/g, '')`. -/
def stripNonNumDot (l : List Char) : List Char :=
  l.filter (fun c => ('0' ≤ c && c ≤ '9') || c == '.')

def digitsToNat (l : List Char) : Nat :=
  l.foldl (fun a c => a * 10 + (c.toNat - '0'.toNat)) 0

/-- `parseFloat` on a string containing only digits and dots (the output
of `stripNonNumDot`), as an exact rational; `none` is JS `NaN`.
`parseFloat` reads an optional integer part, an optional dot and an
optional fraction, and needs at least one digit; a second dot ends the
parse (`parseFloat("12.3.4") = 12.3`). -/
def parseFloatStripped (l : List Char) : Option ℚ :=
  let ds := l.takeWhile (fun c => '0' ≤ c && c ≤ '9')
  let rest := l.drop ds.length
  match ds, rest with
  | [], '.' :: fr =>
    let fd := fr.takeWhile (fun c => '0' ≤ c && c ≤ '9')
    if fd.isEmpty then none
    else some ((digitsToNat fd : ℚ) / (10 : ℚ) ^ fd.length)
  | [], _ => none
  | _ :: _, '.' :: fr =>
    let fd := fr.takeWhile (fun c => '0' ≤ c && c ≤ '9')
    some ((digitsToNat ds : ℚ) + (digitsToNat fd : ℚ) / (10 : ℚ) ^ fd.length)
  | _ :: _, _ => some (digitsToNat ds : ℚ)

/-- The filter predicate of `filterByProfitRange`: the `[15, 100)` check
runs only when no indicator matched and the revenue is disclosed; on
`NaN` (and on out-of-range values) the function returns `hasIndicator`. -/
def passesProfitFilter (b : Listing) : Bool :=
  let hasIndicator := hasIndicatorB b
  if !hasIndicator && b.revenue != "Not disclosed" then
    match parseFloatStripped (stripNonNumDot b.revenue.toList) with
    | some x => if 15 ≤ x ∧ x < 100 then true else hasIndicator
    | none => hasIndicator
  else hasIndicator

def filterByProfitRange (businesses : List Listing) : List Listing :=
  businesses.filter passesProfitFilter

/-! ### Page fetcher (`scrapePage`, server.js lines 55-117)

One network attempt either yields page data (`axios.get` plus the cheerio
link/text collection) or throws with an error message.  The attempts for
one URL are indexed by `retryCount`, which increases by one per attempt.
`scrapePage` returns, besides the `FetchResult`, the number of attempts
issued and the list of waits (in ms) performed before retries. -/

inductive AttemptOutcome where
  | ok (links : List ScrapedLink) (text : List String) (htmlLen : Nat)
  | err (msg : String)
  deriving DecidableEq, Repr

def scrapePage (attempt : Nat → AttemptOutcome) (url website : String)
    (retryCount : Nat) : FetchResult × Nat × List Nat :=
  match attempt retryCount with
  | .ok links text htmlLen =>
    ({ success := true, website, url, links, text,
       error := none, html_length := some htmlLen }, 1, [])
  | .err msg =>
    if h : retryCount < 2 then
      -- waitTime = 2000 * (retryCount + 1), then retry with retryCount + 1
      let r := scrapePage attempt url website (retryCount + 1)
      (r.1, r.2.1 + 1, 2000 * (retryCount + 1) :: r.2.2)
    else
      ({ success := false, website, url, links := [], text := [],
         error := some msg, html_length := none }, 1, [])
  termination_by 2 - retryCount
  decreasing_by omega

/-! ### Site crawler (the page loop of `scrapeAllWebsites`,
server.js lines 224-237)

`fetch` maps a page URL to the `FetchResult` that `scrapePage`
ultimately returns for it (the retry mechanics are verified separately
on `scrapePage`).  The crawler returns the list of page numbers it
requested together with the accumulated listings. -/

def crawlFrom (fetch : String → FetchResult) (config : SiteConfig)
    (now : String) : Nat → Nat → List Nat × List Listing
  | _, 0 => ([], [])
  | page, fuel + 1 =>
    let url := if page = 1 then config.listingUrl
               else config.listingUrl ++ config.pagination ++ toString page
    let pageResult := fetch url
    if pageResult.success && (pageResult.links.length > 0 || pageResult.text.length > 0) then
      let businessesFromPage := findBusinessListings pageResult config now
      let r := crawlFrom fetch config now (page + 1) fuel
      (page :: r.1, businessesFromPage ++ r.2)
    else
      -- "No more data found, stopping pagination"
      ([page], [])

/-- Pages 1 .. `config.maxPages` with early stop. -/
def crawlSiteLoop (fetch : String → FetchResult) (config : SiteConfig)
    (now : String) : List Nat × List Listing :=
  crawlFrom fetch config now 1 config.maxPages

/-! ### Orchestrator (`scrapeAllWebsites`, server.js lines 205-267) -/

/-- Per-site outcome.  `pages_scraped` is only written on the success
path, hence the `Option`. -/
structure SiteResult where
  success : Bool
  url : String
  count : Nat
  businesses : List Listing
  error : Option String
  pages_scraped : Option Nat
  deriving DecidableEq, Repr

structure Summary where
  total_businesses : Nat
  successful_sites : Nat
  failed_sites : Nat
  deriving DecidableEq, Repr

structure ScrapeResults where
  success : Bool
  scraped_at : String
  websites : List (String × SiteResult)
  summary : Summary
  deriving DecidableEq, Repr

/-- Stable ascending insertion by `priority`, equal to the JS stable
`sort(([,a],[,b]) => a.priority - b.priority)`. -/
def insertByPriority (x : String × SiteConfig) :
    List (String × SiteConfig) → List (String × SiteConfig)
  | [] => [x]
  | y :: ys =>
    if y.2.priority ≤ x.2.priority then y :: insertByPriority x ys
    else x :: y :: ys

def sortByPriority (l : List (String × SiteConfig)) : List (String × SiteConfig) :=
  l.foldl (fun acc x => insertByPriority x acc) []

/-- The `pages_scraped` estimate of the success path. -/
def pagesScrapedEstimate (listingUrl : String) (allBusinesses : List Listing) : Nat :=
  if allBusinesses.length > 0 then
    let d := (allBusinesses.filter (fun b => b.link == listingUrl)).length
    let d := if d = 0 then 1 else d
    (allBusinesses.length + d - 1) / d  -- Math.ceil(length / d)
  else 0

/-- The per-site loop body of `scrapeAllWebsites`.  `runSite` is the
semantics of the `try` block for one site: `.ok` is its normal
completion with the accumulated listings, `.error` a thrown exception
caught by the `catch` (the pure instantiation `runSitePure` below never
throws, mirroring that `scrapePage` converts failures into values). -/
def runSites (runSite : String → SiteConfig → Except String (List Listing)) :
    List (String × SiteConfig) → List (String × SiteResult) × Summary
  | [] => ([], { total_businesses := 0, successful_sites := 0, failed_sites := 0 })
  | (websiteName, config) :: rest =>
    let r := runSites runSite rest
    match runSite websiteName config with
    | .ok allBusinesses =>
      ((websiteName,
        { success := true
          url := config.listingUrl
          count := allBusinesses.length
          businesses := allBusinesses
          error := none
          pages_scraped := some (pagesScrapedEstimate config.listingUrl allBusinesses) })
        :: r.1,
       { total_businesses := allBusinesses.length + r.2.total_businesses
         successful_sites := r.2.successful_sites + 1
         failed_sites := r.2.failed_sites })
    | .error msg =>
      ((websiteName,
        { success := false
          url := config.listingUrl
          count := 0
          businesses := []
          error := some msg
          pages_scraped := none })
        :: r.1,
       { total_businesses := r.2.total_businesses
         successful_sites := r.2.successful_sites
         failed_sites := r.2.failed_sites + 1 })

/-- `scrapeAllWebsites()`, parameterised by the site table and the
per-site crawl semantics. -/
def scrapeAllWebsites (sites : List (String × SiteConfig))
    (runSite : String → SiteConfig → Except String (List Listing))
    (now : String) : ScrapeResults :=
  let websiteEntries := sortByPriority sites
  let r := runSites runSite websiteEntries
  { success := true, scraped_at := now, websites := r.1, summary := r.2 }

/-- The actual per-site semantics of the source: the page loop with the
given fetch oracle.  It never throws — `scrapePage` catches every
transport error and returns the failure variant, which merely stops
pagination. -/
def runSitePure (fetch : String → String → FetchResult) (now : String)
    (websiteName : String) (config : SiteConfig) : Except String (List Listing) :=
  .ok (crawlSiteLoop (fetch websiteName) config now).2

/-- Sum of the `count` fields of the successfully-scraped sites. -/
def sumSuccessCounts (ws : List (String × SiteResult)) : Nat :=
  ((ws.filter (fun p => p.2.success)).map (fun p => p.2.count)).sum

/-! ### Specification-side definitions

These definitions follow the words of the specification claims (not the
source); they are compared against the embedded source functions. -/

/-- Claimed kept character set for titles: word characters, whitespace,
and Å/Ä/Ö *matched case-insensitively* (so lower-case å ä ö would be
kept), with nothing else surviving. -/
def claimedTitleKeep (c : Char) : Bool :=
  isWordChar c || isWsChar c ||
  jsToLower c == 'å' || jsToLower c == 'ä' || jsToLower c == 'ö'

/-- Title cleaning as the claim states it. -/
def titlePerClaim (block : String) : String :=
  match titleCandidatesOf block with
  | [] => ""
  | line :: _ => String.mk (((jsTrim line).toList).filter claimedTitleKeep)

/-- Amended kept character set: word characters, whitespace, the
*upper-case* letters Å Ä Ö, and the hyphen. -/
def amendedTitleKeep (c : Char) : Bool :=
  c == 'Å' || c == 'Ä' || c == 'Ö' || c == '-' || isWsChar c || isWordChar c

/-- Title cleaning as amended. -/
def titlePerAmended (block : String) : String :=
  match titleCandidatesOf block with
  | [] => ""
  | line :: _ => String.mk (((jsTrim line).toList).filter amendedTitleKeep)

/-- The claimed deduplication semantics: keep the first listing of each
key, drop every later listing with the same key, preserving order. -/
def firstOccSubseq : List Listing → List Listing
  | [] => []
  | b :: rest =>
    b :: firstOccSubseq (rest.filter (fun c => dedupKey c != dedupKey b))
  termination_by l => l.length
  decreasing_by simpa using Nat.lt_succ_of_le (List.length_filter_le _ _)

/-- Lower-cased input with the characters dropped by the normalization
removed, whitespace retained: the string on which only case, punctuation
removal and whitespace handling have acted. -/
def afterFilterNorm (s : String) : List Char :=
  (s.toList.map jsToLower).filter keepNormChar

/-- Whitespace-separated word splitting (empty words dropped); `cur` is
the reversed word in progress. -/
def splitWsAux (cur : List Char) : List Char → List (List Char)
  | [] => if cur.isEmpty then [] else [cur.reverse]
  | c :: rest =>
    if isWsChar c then
      if cur.isEmpty then splitWsAux [] rest
      else cur.reverse :: splitWsAux [] rest
    else splitWsAux (c :: cur) rest

def splitWsWords (l : List Char) : List (List Char) :=
  splitWsAux [] l

/-- Join words with single spaces. -/
def joinWords : List (List Char) → List Char
  | [] => []
  | [w] => w
  | w :: ws => w ++ ' ' :: joinWords ws

/-- The word sequence of a string after lower-casing and punctuation
removal: two strings that differ only by case, punctuation, or
whitespace runs have the same `wordsOf`. -/
def wordsOf (s : String) : List (List Char) :=
  splitWsWords (afterFilterNorm s)

/-! ### Concrete fixtures used by the counterexamples and witnesses -/

/-- The segmentation input of the segmentation-boundary property. -/
def segInput : String :=
  "Foo bar\nOmsättning 20 mkr företag till salu\nBar baz\noms 5 mkr bolag"

/-- A listing with neutral field values, overridden per test. -/
def baseListing : Listing :=
  { title := "Firma Nord AB"
    company := "Firma Nord AB"
    location := "Sweden"
    price := "Price on request"
    revenue := "Not disclosed"
    profit := "Not disclosed"
    industry := "Various"
    category := "Business for Sale"
    description := "Fin firma i Norrland"
    link := "http://a.example/list"
    website_source := none
    scraped_at := "2024-01-01T00:00:00.000Z"
    currency := "SEK"
    extraction_method := "text_pattern_match_refined" }

/-- Mocked two-site scenario of the end-to-end property. -/
def mockSiteA : SiteConfig :=
  { baseUrl := "http://a.example", listingUrl := "http://a.example/list",
    pagination := "?page=", priority := 1, maxPages := 1 }

def mockSiteB : SiteConfig :=
  { baseUrl := "http://b.example", listingUrl := "http://b.example/list",
    pagination := "?page=", priority := 2, maxPages := 3 }

def mockSites : List (String × SiteConfig) :=
  [("siteA", mockSiteA), ("siteB", mockSiteB)]

/-- Text fragments of the working site: they segment into 3 raw blocks,
all containing a listing keyword; the third block repeats the first
block's title, so 2 listings survive the per-page title set. -/
def mockTextA : List String :=
  ["Fina Bolaget AB", "Omsättning 20 mkr till salu",
   "Andra Firman AB bolag", "Omsättning 30 mkr bolag", "Fina Bolaget AB"]

/-- Fetch oracle: site A's first page succeeds with `mockTextA`; every
other request (in particular site B's first page) fails. -/
def mockFetch (websiteName url : String) : FetchResult :=
  if websiteName == "siteA" && url == "http://a.example/list" then
    { success := true, website := websiteName, url := url, links := [],
      text := mockTextA, error := none, html_length := some 1000 }
  else
    { success := false, website := websiteName, url := url, links := [],
      text := [], error := some "connect ECONNREFUSED", html_length := none }

def mockNow : String := "2024-01-01T00:00:00.000Z"

/-- The aggregate result of the mocked two-site run. -/
def mockResults : ScrapeResults :=
  scrapeAllWebsites mockSites (runSitePure mockFetch mockNow) mockNow

/-- The first configured site, for the `website_source` check. -/
def exitpartnerConfig : SiteConfig :=
  { baseUrl := "https://www.exitpartner.se"
    listingUrl := "https://www.exitpartner.se/foretag-till-salu/"
    pagination := "?page="
    priority := 1
    maxPages := 8 }

/-- A successful fetch of the exitpartner listing page whose text yields
exactly one listing. -/
def c3Fetch : FetchResult :=
  { success := true, website := "exitpartner",
    url := "https://www.exitpartner.se/foretag-till-salu/", links := [],
    text := ["Fint Företag till salu i Uppsala AB"], error := none,
    html_length := some 500 }

/-- A qualifying block whose candidate title line contains lower-case
Swedish letters and a hyphen. -/
def c5Block : String := "Fin firma på ön - bolag till salu"

/-- A three-page site used to exercise the pagination early stop. -/
def earlyStopConfig : SiteConfig :=
  { baseUrl := "http://c.example", listingUrl := "http://c.example/list",
    pagination := "?page=", priority := 1, maxPages := 3 }

/-- Fetch oracle for the early-stop witness: page 1 has text, every
later page succeeds with zero links and zero text fragments. -/
def earlyStopFetch (url : String) : FetchResult :=
  if url == "http://c.example/list" then
    { success := true, website := "c", url := url, links := [],
      text := ["Fint Bolag till salu i Sverige"], error := none,
      html_length := some 100 }
  else
    { success := true, website := "c", url := url, links := [], text := [],
      error := none, html_length := some 10 }

/-- Listings differing only in the `revenue` field, with no indicator
keyword anywhere in profit, description or title. -/
def listing18mkr : Listing := { baseListing with revenue := "18 mkr" }

def listing120mkr : Listing := { baseListing with revenue := "120 mkr" }

def listing18kr : Listing := { baseListing with revenue := "18 kr" }

def listing120kr : Listing := { baseListing with revenue := "120 kr" }

/-- Two listings whose titles and locations differ only by case,
punctuation and whitespace runs. -/
def dupListing1 : Listing :=
  { baseListing with title := "Svensk  Industri AB", location := "Stockholm" }

def dupListing2 : Listing :=
  { baseListing with title := "svensk industri ab!", location := "STOCKHOLM." }

/-! ## Theorems -/

/-- Claim C4, counterexample.  The claim asserts that the segmentation of
`segInput` yields exactly 2 blocks with the *second ending right before*
`"oms"`, i.e. the block list `["Foo bar\n", "Omsättning 20 mkr företag
till salu\nBar baz\n"]`.  The code does produce 2 blocks with the first
ending right before `"Omsättning"`, but the second block runs to the end
of the input: `"oms"` (no trailing period) matches none of the split
tokens `Omsättning`/`omsätter`/`Oms.`, so no split happens before it. -/
theorem c4_counterexample :
    (splitListingBlocks segInput).length = 2 ∧
    (splitListingBlocks segInput).take 1 = ["Foo bar\n"] ∧
    splitListingBlocks segInput ≠
      ["Foo bar\n", "Omsättning 20 mkr företag till salu\nBar baz\n"] := by
  decide

/-- Claim C4, amended: segmenting `segInput` yields exactly 2 blocks, the
first ending right before `"Omsättning"` and the second extending to the
end of the input (it contains `"oms 5 mkr bolag"`), because `"oms"`
without a following period matches no split token. -/
theorem c4_amended :
    splitListingBlocks segInput =
      ["Foo bar\n", "Omsättning 20 mkr företag till salu\nBar baz\noms 5 mkr bolag"] := by
  decide

/-- Claim C3 (code bug): on a real configured site (`exitpartner`) and a
page yielding one listing, the extracted listing's `website_source` is
`none` (JS `undefined`), not the site identifier: the code stores
`websiteConfig.name`, but the site config objects have no `name`
property, even though the identifier is available as
`rawScrapedData.website`. -/
theorem c3_website_source_undefined :
    ("exitpartner", exitpartnerConfig) ∈ WEBSITES ∧
    c3Fetch.website = "exitpartner" ∧
    (findBusinessListings c3Fetch exitpartnerConfig mockNow).map
      (fun b => b.website_source) = [none] ∧
    (findBusinessListings c3Fetch exitpartnerConfig mockNow).length = 1 := by
  decide

/-- Claim C1, counterexample.  In the mocked two-site run (site A: one
page with 3 raw blocks and 2 surviving listings; site B: first-page
fetch failure) the aggregate does *not* report `successful_sites = 1`
and `failed_sites = 1`: a failed fetch is returned by `scrapePage` as a
failure value which merely stops pagination, so site B still completes
its `try` block normally and is counted as successful. -/
theorem c1_counterexample :
    ¬(mockResults.summary.successful_sites = 1 ∧
      mockResults.summary.failed_sites = 1) := by
  decide

/-- Claim C1, amended: the mocked run reports `successful_sites = 2`,
`failed_sites = 0`, `total_businesses = 2` (both contributions from the
working site), and the failing site's record has `success = true`,
count 0, empty listings and no error; the working site's text segments
into 3 blocks producing 2 listings. -/
theorem c1_amended :
    mockResults.summary.successful_sites = 2 ∧
    mockResults.summary.failed_sites = 0 ∧
    mockResults.summary.total_businesses = 2 ∧
    mockResults.websites.lookup "siteB" =
      some { success := true, url := "http://b.example/list", count := 0,
             businesses := [], error := none, pages_scraped := some 0 } ∧
    (mockResults.websites.lookup "siteA").map (fun r => r.count) = some 2 ∧
    (splitListingBlocks (String.intercalate "\n" mockTextA)).length = 3 := by
  refine ⟨rfl, rfl, rfl, rfl, rfl, rfl⟩

/-- Claim C5, counterexample.  On the qualifying block `c5Block` the
extracted title keeps the hyphen (the regex class ends in `-]`) and
drops the lower-case letters å and ö (the regex has no `i` flag), so it
differs from the cleaning the claim describes. -/
theorem c5_counterexample :
    extractTitle c5Block = "Fin firma p n - bolag till salu" ∧
    titlePerClaim c5Block = "Fin firma på ön  bolag till salu" ∧
    extractTitle c5Block ≠ titlePerClaim c5Block := by
  decide

/-- The character class actually applied to titles keeps exactly the word
characters, whitespace, upper-case Å Ä Ö and the hyphen. -/
theorem titleCharKeep_eq_amended (c : Char) : titleCharKeep c = amendedTitleKeep c := by
  simp only [titleCharKeep, amendedTitleKeep]
  cases isWordChar c <;> cases isWsChar c <;>
    cases c == 'Å' <;> cases c == 'Ä' <;> cases c == 'Ö' <;> cases c == '-' <;> rfl

/-- Claim C5, amended: for every block, the extracted title is the first
line whose trimmed form is longer than 10 characters and contains
neither `http` nor `Omsättning`, trimmed, with every character removed
except word characters, whitespace, the *upper-case* Swedish letters
Å/Ä/Ö, and the hyphen (the character class is case-sensitive, so
lower-case å/ä/ö are removed and hyphens survive). -/
theorem c5_amended (block : String) : extractTitle block = titlePerAmended block := by
  unfold extractTitle titlePerAmended
  cases titleCandidatesOf block with
  | nil => rfl
  | cons line rest =>
    have h : List.filter titleCharKeep (jsTrim line).toList =
        List.filter amendedTitleKeep (jsTrim line).toList :=
      List.filter_congr (fun c _ => titleCharKeep_eq_amended c)
    exact congrArg String.mk h

/-- Claim C6: for every URL the fetcher issues at most 3 attempts, and
when all three attempts fail the waits before the retries are exactly
2000 ms then 4000 ms (6000 ms in total), after which the failure variant
carrying the last error message and empty link/text collections is
returned. -/
theorem c6_retry_bound (attempt : Nat → AttemptOutcome) (url website : String) :
    (scrapePage attempt url website 0).2.1 ≤ 3 ∧
    (∀ e0 e1 e2, attempt 0 = .err e0 → attempt 1 = .err e1 → attempt 2 = .err e2 →
      scrapePage attempt url website 0 =
        ({ success := false, website, url, links := [], text := [],
           error := some e2, html_length := none }, 3, [2000, 4000]) ∧
      (scrapePage attempt url website 0).2.2.sum = 6000) := by
  have b2 : (scrapePage attempt url website 2).2.1 = 1 := by
    rw [scrapePage]; cases h : attempt 2 <;> simp
  have b1 : (scrapePage attempt url website 1).2.1 ≤ 2 := by
    rw [scrapePage]; cases h : attempt 1 <;> simp [b2]
  constructor
  · rw [scrapePage]
    cases h : attempt 0 <;> simp
    omega
  · intro e0 e1 e2 h0 h1 h2
    have s2 : scrapePage attempt url website 2 =
        ({ success := false, website, url, links := [], text := [],
           error := some e2, html_length := none }, 1, []) := by
      rw [scrapePage, h2]; simp
    have s1 : scrapePage attempt url website 1 =
        ({ success := false, website, url, links := [], text := [],
           error := some e2, html_length := none }, 2, [4000]) := by
      rw [scrapePage, h1]; simp [s2]
    have s0 : scrapePage attempt url website 0 =
        ({ success := false, website, url, links := [], text := [],
           error := some e2, html_length := none }, 3, [2000, 4000]) := by
      rw [scrapePage, h0]; simp [s1]
    exact ⟨s0, by rw [s0]; rfl⟩

/-- Witness for `c6_retry_bound`: an oracle whose every attempt fails
with `"timeout of 25000ms exceeded"`. -/
theorem c6_retry_bound_witness :
    (scrapePage (fun _ => .err "timeout of 25000ms exceeded") "u" "w" 0).2.1 ≤ 3 ∧
    scrapePage (fun _ => .err "timeout of 25000ms exceeded") "u" "w" 0 =
      ({ success := false, website := "w", url := "u", links := [], text := [],
         error := some "timeout of 25000ms exceeded", html_length := none },
       3, [2000, 4000]) ∧
    (scrapePage (fun _ => .err "timeout of 25000ms exceeded") "u" "w" 0).2.2.sum = 6000 := by
  have h := c6_retry_bound (fun _ => .err "timeout of 25000ms exceeded") "u" "w"
  have h2 := h.2 "timeout of 25000ms exceeded" "timeout of 25000ms exceeded"
    "timeout of 25000ms exceeded" rfl rfl rfl
  exact ⟨h.1, h2.1, h2.2⟩

/-- Claim C7: for every site config with `maxPages ≥ 3`, if the fetch of
page 2 yields zero links and zero text fragments, the crawler never
requests page 3 (the page loop breaks as soon as a page has no data). -/
theorem c7_pagination_early_stop (fetch : String → FetchResult)
    (config : SiteConfig) (now : String) (hmax : 3 ≤ config.maxPages)
    (hlinks : (fetch (config.listingUrl ++ config.pagination ++ toString 2)).links = [])
    (htext : (fetch (config.listingUrl ++ config.pagination ++ toString 2)).text = []) :
    3 ∉ (crawlSiteLoop fetch config now).1 := by
  obtain ⟨k, hk⟩ : ∃ k, config.maxPages = k + 3 := ⟨config.maxPages - 3, by omega⟩
  unfold crawlSiteLoop
  rw [hk]
  show 3 ∉ (crawlFrom fetch config now 1 (k + 2 + 1)).1
  have h2 : (crawlFrom fetch config now 2 (k + 1 + 1)).1 = [2] := by
    rw [crawlFrom]
    simp [hlinks, htext]
  rw [crawlFrom]
  split
  · split
    · simp [h2]
    · simp
  · exact absurd rfl (by assumption)

/-- Witness for `c7_pagination_early_stop`: the three-page test site
whose page 1 has data and whose page 2 is empty. -/
theorem c7_pagination_early_stop_witness :
    3 ≤ earlyStopConfig.maxPages ∧
    (earlyStopFetch (earlyStopConfig.listingUrl ++ earlyStopConfig.pagination ++
      toString 2)).links = [] ∧
    (earlyStopFetch (earlyStopConfig.listingUrl ++ earlyStopConfig.pagination ++
      toString 2)).text = [] ∧
    3 ∉ (crawlSiteLoop earlyStopFetch earlyStopConfig "t").1 :=
  ⟨by decide, by decide, by decide,
   c7_pagination_early_stop earlyStopFetch earlyStopConfig "t"
     (by decide) (by decide) (by decide)⟩

/-- The seen-key set of the deduplication loop only matters up to
membership. -/
theorem dedupGo_congr (l : List Listing) : ∀ s1 s2 : List String,
    (∀ k, k ∈ s1 ↔ k ∈ s2) → dedupGo s1 l = dedupGo s2 l := by
  induction l with
  | nil => intro s1 s2 _; rfl
  | cons b rest ih =>
    intro s1 s2 h
    simp only [dedupGo]
    by_cases hb : dedupKey b ∈ s1
    · rw [if_pos hb, if_pos ((h _).mp hb), ih s1 s2 h]
    · rw [if_neg hb, if_neg (fun hc => hb ((h _).mpr hc))]
      have h2 : ∀ k, k ∈ dedupKey b :: s1 ↔ k ∈ dedupKey b :: s2 := by
        intro k
        simp only [List.mem_cons]
        exact or_congr Iff.rfl (h k)
      rw [ih _ _ h2]

/-- Marking a key as seen is the same as dropping every listing with
that key from the rest of the input. -/
theorem dedupGo_cons_key (l : List Listing) : ∀ (k : String) (seen : List String),
    dedupGo (k :: seen) l = dedupGo seen (l.filter (fun c => dedupKey c != k)) := by
  induction l with
  | nil => intro k seen; rfl
  | cons b rest ih =>
    intro k seen
    by_cases hbk : dedupKey b = k
    · have hfilter : (b :: rest).filter (fun c => dedupKey c != k) =
          rest.filter (fun c => dedupKey c != k) := by
        rw [List.filter_cons, if_neg (by simp [hbk])]
      rw [hfilter, dedupGo]
      rw [if_pos (by simp [hbk]), ih]
    · have hfilter : (b :: rest).filter (fun c => dedupKey c != k) =
          b :: rest.filter (fun c => dedupKey c != k) := by
        rw [List.filter_cons, if_pos (by simp [hbk])]
      rw [hfilter]
      by_cases hbs : dedupKey b ∈ seen
      · rw [dedupGo, if_pos (by simp [hbs]), dedupGo, if_pos hbs, ih]
      · rw [dedupGo, if_neg (by simp [hbk, hbs]), dedupGo, if_neg hbs]
        congr 1
        rw [dedupGo_congr rest (dedupKey b :: k :: seen) (k :: dedupKey b :: seen)
          (by intro x; simp [List.mem_cons]; tauto)]
        exact ih k (dedupKey b :: seen)

/-- The deduplication loop emits a sublist of its input. -/
theorem dedupGo_sublist : ∀ (l : List Listing) (seen : List String),
    List.Sublist (dedupGo seen l) l := by
  intro l
  induction l with
  | nil => intro seen; exact List.Sublist.refl []
  | cons b rest ih =>
    intro seen
    rw [dedupGo]
    split
    · exact (ih seen).cons b
    · exact (ih _).cons₂ b

/-- The deduplication loop computes the first-occurrence subsequence. -/
theorem dedup_eq_firstOcc : ∀ l : List Listing, dedupGo [] l = firstOccSubseq l := by
  intro l
  induction l using firstOccSubseq.induct with
  | case1 => rw [firstOccSubseq]; rfl
  | case2 b rest ih =>
    rw [firstOccSubseq, dedupGo]
    rw [if_neg (by simp)]
    rw [dedupGo_cons_key rest (dedupKey b) []]
    rw [ih]

/-- Claim C8: for every input, the output of `deduplicateBusinesses` is
the subsequence keeping the first listing observed for each normalized
`(title, location)` key (every later listing with the same key is
dropped), and it is a sublist of the input, so the first-seen relative
order of the survivors is preserved. -/
theorem c8_dedup_first_occurrence (l : List Listing) :
    deduplicateBusinesses l = firstOccSubseq l ∧
    List.Sublist (deduplicateBusinesses l) l :=
  ⟨dedup_eq_firstOcc l, dedupGo_sublist l []⟩

/-! Equality of `wordsOf` is how "differ only by case, punctuation, or
whitespace runs" is rendered: lower-casing removes case differences,
the normalization filter removes the punctuation, and word splitting
ignores whitespace runs.  The lemmas below show that the source's
normalization (`lowercase → strip → collapse whitespace → trim`) is
determined by `wordsOf`. -/

theorem dropWhile_append_of_ne_nil {p : Char → Bool} {a b : List Char}
    (h : a.dropWhile p ≠ []) : (a ++ b).dropWhile p = a.dropWhile p ++ b := by
  induction a with
  | nil => exact absurd rfl h
  | cons c cs ih =>
    by_cases hc : p c
    · simp only [List.cons_append, List.dropWhile_cons_of_pos hc] at h ⊢
      exact ih h
    · rw [List.cons_append, List.dropWhile_cons_of_neg hc,
        List.dropWhile_cons_of_neg hc, List.cons_append]

theorem dropWhile_eq_self_of_all {p : Char → Bool} {l : List Char}
    (h : ∀ c ∈ l, p c = false) : l.dropWhile p = l := by
  cases l with
  | nil => rfl
  | cons a as =>
    rw [List.dropWhile_cons_of_neg (by simp [h a (List.mem_cons_self a as)])]

theorem trimRightChars_append {x y : List Char} (h : trimRightChars y ≠ []) :
    trimRightChars (x ++ y) = x ++ trimRightChars y := by
  unfold trimRightChars at *
  rw [List.reverse_append]
  rw [dropWhile_append_of_ne_nil (fun hy => h (by rw [hy]; rfl))]
  rw [List.reverse_append, List.reverse_reverse]

theorem trimRightChars_all_nonws {l : List Char}
    (h : ∀ c ∈ l, isWsChar c = false) : trimRightChars l = l := by
  unfold trimRightChars
  rw [dropWhile_eq_self_of_all (fun c hc => h c (List.mem_reverse.mp hc))]
  exact List.reverse_reverse l

theorem trimRightChars_cons_ne_nil {c : Char} {z : List Char}
    (h : isWsChar c = false) : trimRightChars (c :: z) ≠ [] := by
  unfold trimRightChars
  intro hcontra
  have h1 : (c :: z).reverse.dropWhile isWsChar = [] := by
    have := congrArg List.reverse hcontra
    rwa [List.reverse_reverse] at this
  have h2 := List.dropWhile_eq_nil_iff.mp h1
  have := h2 c (by simp)
  rw [h] at this
  exact Bool.false_ne_true this

theorem trimChars_eq_trimRight_of_head_nonws {c : Char} {z : List Char}
    (h : isWsChar c = false) : trimChars (c :: z) = trimRightChars (c :: z) := by
  unfold trimChars
  rw [List.dropWhile_cons_of_neg (by simp [h])]

theorem collapseWs_cons_nonws (c : Char) {l : List Char} (h : isWsChar c = false) :
    collapseWs (c :: l) = c :: collapseWs l := by
  cases l with
  | nil => simp [collapseWs, h]
  | cons c2 r => simp [collapseWs, h]

theorem collapseWs_ws_ws (c c2 : Char) (r : List Char)
    (h : isWsChar c = true) (h2 : isWsChar c2 = true) :
    collapseWs (c :: c2 :: r) = collapseWs (c2 :: r) := by
  simp [collapseWs, h, h2]

theorem collapseWs_ws_nonws (c c2 : Char) (r : List Char)
    (h : isWsChar c = true) (h2 : isWsChar c2 = false) :
    collapseWs (c :: c2 :: r) = ' ' :: collapseWs (c2 :: r) := by
  simp [collapseWs, h, h2]

theorem collapseWs_ws_single (c : Char) (h : isWsChar c = true) :
    collapseWs [c] = [' '] := by
  simp [collapseWs, h]

theorem trimChars_ws_cons (c : Char) (l : List Char) (h : isWsChar c = true) :
    trimChars (c :: l) = trimChars l := by
  simp [trimChars, List.dropWhile_cons, h]

theorem splitWsAux_ne_nil : ∀ (l cur : List Char), cur ≠ [] → splitWsAux cur l ≠ [] := by
  intro l
  induction l with
  | nil =>
    intro cur hcur
    simp [splitWsAux, hcur]
  | cons c r ih =>
    intro cur hcur
    by_cases hc : isWsChar c
    · simp only [splitWsAux, hc, if_true]
      rw [if_neg (by simp [hcur])]
      simp
    · simp only [splitWsAux, hc]
      simp only [if_false, Bool.false_eq_true]
      exact ih (c :: cur) (by simp)

theorem joinWords_cons {w : List Char} {ws : List (List Char)} (h : ws ≠ []) :
    joinWords (w :: ws) = w ++ ' ' :: joinWords ws := by
  cases ws with
  | nil => exact absurd rfl h
  | cons a as => rfl

theorem trimChars_word_append (w z : List Char) (hw : w ≠ [])
    (hnw : ∀ c ∈ w, isWsChar c = false) :
    trimChars (w.reverse ++ z) = trimRightChars (w.reverse ++ z) := by
  cases hrev : w.reverse with
  | nil => exact absurd (by simpa using congrArg List.reverse hrev) hw
  | cons d t =>
    have hd : isWsChar d = false := by
      apply hnw
      have : d ∈ w.reverse := by rw [hrev]; simp
      exact List.mem_reverse.mp this
    rw [List.cons_append]
    exact trimChars_eq_trimRight_of_head_nonws hd

theorem trimRightChars_append_ws {x : List Char} {c : Char} (h : isWsChar c = true) :
    trimRightChars (x ++ [c]) = trimRightChars x := by
  unfold trimRightChars
  rw [List.reverse_append]
  simp [List.dropWhile_cons, h]

/-- With a non-empty whitespace-free word `w` (reversed) already read,
collapsing-and-trimming the rest agrees with word splitting. -/
theorem collapse_split_agree : ∀ (n : Nat) (rest w : List Char), rest.length ≤ n →
    w ≠ [] → (∀ c ∈ w, isWsChar c = false) →
    trimChars (w.reverse ++ collapseWs rest) = joinWords (splitWsAux w rest) := by
  intro n
  induction n with
  | zero =>
    intro rest w hlen hw hnw
    have : rest = [] := List.length_eq_zero.mp (Nat.le_zero.mp hlen)
    subst this
    have hword : trimChars w.reverse = w.reverse := by
      have h1 := trimChars_word_append w [] hw hnw
      rw [List.append_nil] at h1
      rw [h1]
      exact trimRightChars_all_nonws (fun c hc => hnw c (List.mem_reverse.mp hc))
    rw [show collapseWs [] = [] from rfl, List.append_nil, hword]
    simp only [splitWsAux]
    rw [if_neg (by simp [hw])]
    simp [joinWords]
  | succ n ih =>
    intro rest w hlen hw hnw
    cases rest with
    | nil =>
      have hword : trimChars w.reverse = w.reverse := by
        have h1 := trimChars_word_append w [] hw hnw
        rw [List.append_nil] at h1
        rw [h1]
        exact trimRightChars_all_nonws (fun c hc => hnw c (List.mem_reverse.mp hc))
      rw [show collapseWs [] = [] from rfl, List.append_nil, hword]
      simp only [splitWsAux]
      rw [if_neg (by simp [hw])]
      simp [joinWords]
    | cons c r =>
      by_cases hc : isWsChar c
      · cases r with
        | nil =>
          rw [collapseWs_ws_single c hc]
          rw [trimChars_word_append w [' '] hw hnw]
          rw [trimRightChars_append_ws (by rfl)]
          rw [trimRightChars_all_nonws (fun x hx => hnw x (List.mem_reverse.mp hx))]
          simp only [splitWsAux, hc, if_true]
          rw [if_neg (by simp [hw])]
          simp [splitWsAux, joinWords]
        | cons c2 r2 =>
          by_cases hc2 : isWsChar c2
          · rw [collapseWs_ws_ws c c2 r2 hc hc2]
            have step : trimChars (w.reverse ++ collapseWs (c2 :: r2)) =
                joinWords (splitWsAux w (c2 :: r2)) := by
              apply ih (c2 :: r2) w _ hw hnw
              simp at hlen
              simp
              omega
            rw [step]
            have e1 : splitWsAux w (c :: c2 :: r2) = w.reverse :: splitWsAux [] r2 := by
              simp only [splitWsAux, hc, hc2, if_true]
              rw [if_neg (by simp [hw])]
              simp [splitWsAux, hc2]
            have e2 : splitWsAux w (c2 :: r2) = w.reverse :: splitWsAux [] r2 := by
              simp only [splitWsAux, hc2, if_true]
              rw [if_neg (by simp [hw])]
            rw [e1, e2]
          · rw [collapseWs_ws_nonws c c2 r2 hc (by simpa using hc2)]
            rw [collapseWs_cons_nonws c2 (by simpa using hc2)]
            rw [show w.reverse ++ ' ' :: c2 :: collapseWs r2 =
              (w.reverse ++ [' ']) ++ (c2 :: collapseWs r2) by simp]
            have hmain := trimChars_word_append w (' ' :: c2 :: collapseWs r2) hw hnw
            rw [show w.reverse ++ ' ' :: c2 :: collapseWs r2 =
              (w.reverse ++ [' ']) ++ (c2 :: collapseWs r2) by simp] at hmain
            rw [hmain]
            rw [trimRightChars_append (trimRightChars_cons_ne_nil (by simpa using hc2))]
            have ihstep : trimRightChars (c2 :: collapseWs r2) =
                joinWords (splitWsAux [c2] r2) := by
              have := ih r2 [c2] (by simp at hlen; omega) (by simp)
                (by intro x hx; simp at hx; rw [hx]; simpa using hc2)
              rw [show ([c2] : List Char).reverse = [c2] from rfl] at this
              rw [show ([c2] : List Char) ++ collapseWs r2 = c2 :: collapseWs r2 from rfl] at this
              rw [trimChars_eq_trimRight_of_head_nonws (by simpa using hc2)] at this
              exact this
            rw [ihstep]
            have e1 : splitWsAux w (c :: c2 :: r2) = w.reverse :: splitWsAux [c2] r2 := by
              simp only [splitWsAux, hc, if_true]
              rw [if_neg (by simp [hw])]
              simp [splitWsAux, hc2]
            rw [e1]
            rw [joinWords_cons (splitWsAux_ne_nil r2 [c2] (by simp))]
            simp
      · rw [collapseWs_cons_nonws c (by simpa using hc)]
        rw [show w.reverse ++ c :: collapseWs r = (c :: w).reverse ++ collapseWs r by simp]
        have step := ih r (c :: w) (by simp at hlen; omega) (by simp)
          (by intro x hx; rcases List.mem_cons.mp hx with h1 | h2
              · rw [h1]; simpa using hc
              · exact hnw x h2)
        rw [step]
        simp only [splitWsAux, hc]
        simp

/-- Collapsing whitespace runs and trimming produces the single-space
join of the whitespace-separated words. -/
theorem trim_collapse_eq_join : ∀ (n : Nat) (l : List Char), l.length ≤ n →
    trimChars (collapseWs l) = joinWords (splitWsWords l) := by
  intro n
  induction n with
  | zero =>
    intro l hlen
    have : l = [] := List.length_eq_zero.mp (Nat.le_zero.mp hlen)
    subst this
    rfl
  | succ n ih =>
    intro l hlen
    cases l with
    | nil => rfl
    | cons c r =>
      by_cases hc : isWsChar c
      · cases r with
        | nil =>
          rw [collapseWs_ws_single c hc]
          rw [trimChars_ws_cons ' ' [] rfl]
          unfold splitWsWords
          simp [splitWsAux, hc, joinWords, trimChars, trimRightChars]
        | cons c2 r2 =>
          have hsplit : splitWsWords (c :: c2 :: r2) = splitWsWords (c2 :: r2) := by
            unfold splitWsWords
            simp [splitWsAux, hc]
          by_cases hc2 : isWsChar c2
          · rw [collapseWs_ws_ws c c2 r2 hc hc2, hsplit]
            exact ih (c2 :: r2) (by simp at hlen ⊢; omega)
          · rw [collapseWs_ws_nonws c c2 r2 hc (by simpa using hc2)]
            rw [trimChars_ws_cons ' ' _ rfl, hsplit]
            exact ih (c2 :: r2) (by simp at hlen ⊢; omega)
      · rw [collapseWs_cons_nonws c (by simpa using hc)]
        have hG := collapse_split_agree n r [c] (by simp at hlen; omega) (by simp)
          (by intro x hx; simp at hx; rw [hx]; simpa using hc)
        rw [show ([c] : List Char).reverse = [c] from rfl] at hG
        rw [show ([c] : List Char) ++ collapseWs r = c :: collapseWs r from rfl] at hG
        rw [hG]
        unfold splitWsWords
        simp [splitWsAux, hc]

/-- The source's normalization is the single-space join of `wordsOf`. -/
theorem normalizeKeyPart_eq_joinWords (s : String) :
    normalizeKeyPart s = String.mk (joinWords (wordsOf s)) := by
  unfold normalizeKeyPart wordsOf afterFilterNorm
  exact congrArg String.mk
    (trim_collapse_eq_join ((s.toList.map jsToLower).filter keepNormChar).length _ le_rfl)

/-- Claim C9: two listings whose titles and whose locations differ only
by case, punctuation, or whitespace runs (rendered: they have the same
`wordsOf`, the word sequences left after lower-casing and removing the
stripped characters) get equal normalized deduplication keys, and
`deduplicateBusinesses` keeps exactly the first of the two. -/
theorem c9_normalized_key_collapse (L1 L2 : Listing)
    (ht : wordsOf L1.title = wordsOf L2.title)
    (hl : wordsOf L1.location = wordsOf L2.location) :
    dedupKey L1 = dedupKey L2 ∧ deduplicateBusinesses [L1, L2] = [L1] := by
  have hkey : dedupKey L1 = dedupKey L2 := by
    unfold dedupKey
    rw [normalizeKeyPart_eq_joinWords L1.title, normalizeKeyPart_eq_joinWords L2.title,
      normalizeKeyPart_eq_joinWords L1.location, normalizeKeyPart_eq_joinWords L2.location,
      ht, hl]
  refine ⟨hkey, ?_⟩
  unfold deduplicateBusinesses
  rw [dedupGo, if_neg (by simp)]
  rw [dedupGo, if_pos (by simp [← hkey])]
  rfl

/-- Witness for `c9_normalized_key_collapse`: `"Svensk  Industri AB"` in
`"Stockholm"` versus `"svensk industri ab!"` in `"STOCKHOLM."`. -/
theorem c9_normalized_key_collapse_witness :
    wordsOf dupListing1.title = wordsOf dupListing2.title ∧
    wordsOf dupListing1.location = wordsOf dupListing2.location ∧
    dedupKey dupListing1 = dedupKey dupListing2 ∧
    deduplicateBusinesses [dupListing1, dupListing2] = [dupListing1] := by
  have h := c9_normalized_key_collapse dupListing1 dupListing2 (by decide) (by decide)
  exact ⟨by decide, by decide, h.1, h.2⟩

/-- Per-site loop invariants: each processed site increments exactly one
of the two counters, the total is the sum over successful sites, and the
site names are preserved in order. -/
theorem runSites_invariants (runSite : String → SiteConfig → Except String (List Listing)) :
    ∀ entries : List (String × SiteConfig),
    (runSites runSite entries).2.successful_sites +
      (runSites runSite entries).2.failed_sites = entries.length ∧
    (runSites runSite entries).2.total_businesses =
      sumSuccessCounts (runSites runSite entries).1 ∧
    (runSites runSite entries).1.map Prod.fst = entries.map Prod.fst := by
  intro entries
  induction entries with
  | nil => exact ⟨rfl, rfl, rfl⟩
  | cons e rest ih =>
    obtain ⟨name, config⟩ := e
    obtain ⟨ih1, ih2, ih3⟩ := ih
    simp only [runSites]
    cases h : runSite name config with
    | ok bs =>
      refine ⟨?_, ?_, ?_⟩
      · simp only [List.length_cons]
        omega
      · simp only [sumSuccessCounts, List.filter_cons] at ih2 ⊢
        simp [ih2]
      · simp [ih3]
    | error msg =>
      refine ⟨?_, ?_, ?_⟩
      · simp only [List.length_cons]
        omega
      · simp only [sumSuccessCounts, List.filter_cons] at ih2 ⊢
        simpa using ih2
      · simp [ih3]

theorem insertByPriority_perm (x : String × SiteConfig) :
    ∀ l, List.Perm (insertByPriority x l) (x :: l) := by
  intro l
  induction l with
  | nil => exact List.Perm.refl _
  | cons y ys ih =>
    rw [insertByPriority]
    split
    · exact (ih.cons y).trans (List.Perm.swap x y ys)
    · exact List.Perm.refl _

theorem foldl_insert_perm : ∀ (l acc : List (String × SiteConfig)),
    List.Perm (l.foldl (fun a x => insertByPriority x a) acc) (acc ++ l) := by
  intro l
  induction l with
  | nil => intro acc; simp
  | cons x xs ih =>
    intro acc
    rw [List.foldl_cons]
    refine (ih (insertByPriority x acc)).trans ?_
    have h1 : List.Perm (insertByPriority x acc ++ xs) ((x :: acc) ++ xs) :=
      (insertByPriority_perm x acc).append_right xs
    refine h1.trans ?_
    simp only [List.cons_append]
    exact List.perm_middle.symm

/-- The priority sort permutes the site table. -/
theorem sortByPriority_perm (l : List (String × SiteConfig)) :
    List.Perm (sortByPriority l) l := by
  have := foldl_insert_perm l []
  simpa [sortByPriority] using this

/-- Claim C10: for every per-site crawl semantics, after
`scrapeAllWebsites` over the configured `WEBSITES` completes,
`successful_sites + failed_sites` equals the number of configured sites
(4), every configured site has an entry in the websites mapping, and
`total_businesses` equals the sum of the counts of the sites recorded
with `success = true`. -/
theorem c10_summary_invariants
    (runSite : String → SiteConfig → Except String (List Listing)) (now : String) :
    (scrapeAllWebsites WEBSITES runSite now).summary.successful_sites +
      (scrapeAllWebsites WEBSITES runSite now).summary.failed_sites = 4 ∧
    (∀ p ∈ WEBSITES,
      p.1 ∈ (scrapeAllWebsites WEBSITES runSite now).websites.map Prod.fst) ∧
    (scrapeAllWebsites WEBSITES runSite now).summary.total_businesses =
      sumSuccessCounts (scrapeAllWebsites WEBSITES runSite now).websites := by
  have hperm := sortByPriority_perm WEBSITES
  obtain ⟨h1, h2, h3⟩ := runSites_invariants runSite (sortByPriority WEBSITES)
  refine ⟨?_, ?_, ?_⟩
  · show (runSites runSite (sortByPriority WEBSITES)).2.successful_sites +
      (runSites runSite (sortByPriority WEBSITES)).2.failed_sites = 4
    rw [h1, hperm.length_eq]
    rfl
  · intro p hp
    show p.1 ∈ (runSites runSite (sortByPriority WEBSITES)).1.map Prod.fst
    rw [h3]
    exact (hperm.map Prod.fst).mem_iff.mpr (List.mem_map_of_mem Prod.fst hp)
  · exact h2

/-- Witness for `c10_summary_invariants`: the crawl that finds nothing
anywhere, checked e.g. for the `exitpartner` entry. -/
theorem c10_summary_invariants_witness :
    (scrapeAllWebsites WEBSITES (fun _ _ => Except.ok []) "t").summary.successful_sites +
      (scrapeAllWebsites WEBSITES (fun _ _ => Except.ok []) "t").summary.failed_sites = 4 ∧
    "exitpartner" ∈
      (scrapeAllWebsites WEBSITES (fun _ _ => Except.ok []) "t").websites.map Prod.fst ∧
    (scrapeAllWebsites WEBSITES (fun _ _ => Except.ok []) "t").summary.total_businesses =
      sumSuccessCounts (scrapeAllWebsites WEBSITES (fun _ _ => Except.ok []) "t").websites := by
  have h := c10_summary_invariants (fun _ _ => Except.ok []) "t"
  exact ⟨h.1, h.2.1 ("exitpartner", exitpartnerConfig) (by decide), h.2.2⟩

theorem startsWith_append {pat : List Char} : ∀ {x : List Char} (y : List Char),
    startsWith pat x = true → startsWith pat (x ++ y) = true := by
  induction pat with
  | nil => intro x y _; rfl
  | cons p ps ih =>
    intro x y h
    cases x with
    | nil => exact absurd h (by simp [startsWith])
    | cons c cs =>
      simp only [startsWith, Bool.and_eq_true] at h
      simp only [List.cons_append, startsWith, Bool.and_eq_true]
      exact ⟨h.1, ih y h.2⟩

theorem hasSubstr_nil_pat : ∀ y : List Char, hasSubstr [] y = true := by
  intro y
  cases y with
  | nil => rfl
  | cons c cs => simp [hasSubstr, startsWith]

/-- A substring of a prefix is a substring of the whole. -/
theorem hasSubstr_append_left {pat : List Char} : ∀ {x : List Char} (y : List Char),
    hasSubstr pat x = true → hasSubstr pat (x ++ y) = true := by
  intro x
  induction x with
  | nil =>
    intro y h
    cases pat with
    | nil => exact hasSubstr_nil_pat y
    | cons p ps => exact absurd h (by simp [hasSubstr])
  | cons c cs ih =>
    intro y h
    simp only [hasSubstr, Bool.or_eq_true] at h
    rcases h with h | h
    · simp only [List.cons_append, hasSubstr, Bool.or_eq_true]
      exact Or.inl (startsWith_append y h)
    · simp only [List.cons_append, hasSubstr, Bool.or_eq_true]
      exact Or.inr (ih y h)

/-- Any listing whose lower-cased revenue contains `mkr` passes the
profile filter: the revenue string is the first component of the search
text, so the Swedish-millions indicator fires on it. -/
theorem revenue_mkr_passes (b : Listing)
    (h : hasSubstr "mkr".toList (b.revenue.toList.map jsToLower) = true) :
    passesProfitFilter b = true := by
  have hsub : hasSubstr "mkr".toList (searchChars b) = true := by
    unfold searchChars
    simp only [String.toList, String.data_append, List.map_append, List.append_assoc]
    exact hasSubstr_append_left _ h
  have hmil : millionsInd (searchChars b) = true := by
    unfold millionsInd
    rw [hsub]
    simp
  have hind : hasIndicatorB b = true := by
    show (millionsInd (searchChars b) || employeesInd (searchChars b) ||
      profitKeywordInd (searchChars b)) = true
    rw [hmil]
    simp
  simp [passesProfitFilter, hind]

/-- Claim C2, counterexample.  `listing120mkr` has revenue `"120 mkr"`
and no keyword matches (no profitability keyword and no employee-count
pattern anywhere in its search text), yet `filterByProfitRange` keeps it
instead of excluding it: the `mkr` inside the revenue itself matches the
Swedish-millions indicator, so the `[15, 100)` range check is never
reached. -/
theorem c2_counterexample :
    profitKeywordInd (searchChars listing120mkr) = false ∧
    employeesInd (searchChars listing120mkr) = false ∧
    filterByProfitRange [listing120mkr] = [listing120mkr] := by
  decide

/-- Claim C2, amended: a listing with revenue `"18 mkr"` and no keyword
matches passes the filter, but a listing with revenue `"120 mkr"` also
passes rather than being excluded (the revenue's own `mkr` matches the
millions indicator searched over revenue + profit + description +
title).  The `[15, 100)` parse of the revenue decides only when no
indicator matches the search text at all: then revenue `"18 kr"` passes
and revenue `"120 kr"` is excluded. -/
theorem c2_amended :
    (∀ b : Listing, b.revenue = "18 mkr" → passesProfitFilter b = true) ∧
    (∀ b : Listing, b.revenue = "120 mkr" → passesProfitFilter b = true) ∧
    (∀ b : Listing, b.revenue = "18 kr" → hasIndicatorB b = false →
      passesProfitFilter b = true) ∧
    (∀ b : Listing, b.revenue = "120 kr" → hasIndicatorB b = false →
      passesProfitFilter b = false) := by
  refine ⟨?_, ?_, ?_, ?_⟩
  · intro b hrev
    apply revenue_mkr_passes
    rw [hrev]
    decide
  · intro b hrev
    apply revenue_mkr_passes
    rw [hrev]
    decide
  · intro b hrev hind
    simp only [passesProfitFilter, hind, hrev]
    decide
  · intro b hrev hind
    simp only [passesProfitFilter, hind, hrev]
    decide

/-- Witness for `c2_amended`: the four fixture listings, which differ
only in `revenue` and have indicator-free profit/description/title. -/
theorem c2_amended_witness :
    passesProfitFilter listing18mkr = true ∧
    passesProfitFilter listing120mkr = true ∧
    (hasIndicatorB listing18kr = false ∧ passesProfitFilter listing18kr = true) ∧
    (hasIndicatorB listing120kr = false ∧ passesProfitFilter listing120kr = false) := by
  refine ⟨c2_amended.1 listing18mkr rfl, c2_amended.2.1 listing120mkr rfl,
    ⟨by decide, c2_amended.2.2.1 listing18kr rfl (by decide)⟩,
    ⟨by decide, c2_amended.2.2.2 listing120kr rfl (by decide)⟩⟩

end SwedenScraper
